import Mathlib

/-!
# Verification of the Golay(23,12) codec (`golay.go`)

Shallow embedding of the bool-slice codec in `golay.go`:
the generator/parity-check tables `g` and `h`, the internal block codec
`encode`/`decode`/`correctErrors`, and the public stream functions
`Encode`/`Decode`.  Go slices are modelled as `List Bool`; fallible code
(the `panic` guards of the internal helpers and Go's slice-bound checks)
returns `Option`.
-/

namespace Golay

/-- Generator matrix G parity portion, 12x11, row-major (`g` in golay.go). -/
def g : List Bool := [
  true, false, true, false, true, true, true, false, false, false, true,
  true, true, false, true, false, true, true, true, false, false, false,
  true, true, true, false, true, false, true, true, true, false, false,
  true, true, true, true, false, true, false, true, true, true, false,
  true, true, true, true, true, false, true, false, true, true, true,
  false, true, true, true, true, true, false, true, false, true, true,
  false, false, true, true, true, true, true, false, true, false, true,
  true, false, false, true, true, true, true, true, false, true, false,
  false, true, false, false, true, true, true, true, true, false, true,
  true, false, true, false, false, true, true, true, true, true, false,
  false, true, false, true, false, false, true, true, true, true, true,
  true, false, true, true, true, false, false, true, true, true, true]

/-- Parity check matrix H transposed, 23x11, row-major (`h` in golay.go). -/
def h : List Bool := [
  true, false, true, false, true, true, true, false, false, false, true,
  true, true, false, true, false, true, true, true, false, false, false,
  true, true, true, false, true, false, true, true, true, false, false,
  true, true, true, true, false, true, false, true, true, true, false,
  true, true, true, true, true, false, true, false, true, true, true,
  false, true, true, true, true, true, false, true, false, true, true,
  false, false, true, true, true, true, true, false, true, false, true,
  true, false, false, true, true, true, true, true, false, true, false,
  false, true, false, false, true, true, true, true, true, false, true,
  true, false, true, false, false, true, true, true, true, true, false,
  false, true, false, true, false, false, true, true, true, true, true,
  true, false, true, true, true, false, false, true, true, true, true,
  true, false, false, false, false, false, false, false, false, false, false,
  false, true, false, false, false, false, false, false, false, false, false,
  false, false, true, false, false, false, false, false, false, false, false,
  false, false, false, true, false, false, false, false, false, false, false,
  false, false, false, false, true, false, false, false, false, false, false,
  false, false, false, false, false, true, false, false, false, false, false,
  false, false, false, false, false, false, true, false, false, false, false,
  false, false, false, false, false, false, false, true, false, false, false,
  false, false, false, false, false, false, false, false, true, false, false,
  false, false, false, false, false, false, false, false, false, true, false,
  false, false, false, false, false, false, false, false, false, false, true]

/-- `xorBool` from golay.go. -/
def xorBool (a b : Bool) : Bool := a != b

/-- Parity bit `i` of a 12-bit data word: the inner loop of `encode`
(`p` flipped whenever `data[j] && g[j*11+i]`). -/
def parityBit (data : List Bool) (i : Nat) : Bool :=
  (List.range 12).foldl (fun p j => if data.getD j false && g.getD (j * 11 + i) false then !p else p)
    false

/-- The 11 parity bits written by `encode` (outer loop over `i`). -/
def parityList (data : List Bool) : List Bool :=
  (List.range 11).map (parityBit data)

/-- Internal `encode(data, parity)`: panics (`none`) unless `len(data) = 12`
and `len(parity) = 11`; otherwise returns the new contents of `parity`. -/
def encodeGo (data parity : List Bool) : Option (List Bool) :=
  if data.length ≠ 12 then none
  else if parity.length ≠ 11 then none
  else some (parityList data)

/-- Syndrome bit `i` of a received word: the inner loop of `decode`
(`s` flipped whenever `received[j] && h[j*11+i]`). -/
def syndromeBit (received : List Bool) (i : Nat) : Bool :=
  (List.range 23).foldl
    (fun s j => if received.getD j false && h.getD (j * 11 + i) false then !s else s) false

/-- The 11-bit syndrome `S = H^T * r` computed by `decode`. -/
def syndromeList (received : List Bool) : List Bool :=
  (List.range 11).map (syndromeBit received)

/-- The `isZero` scan of `decode`. -/
def isZeroSyndrome (s : List Bool) : Bool := s.all (fun bit => !bit)

/-- The 1-bit match test of `correctErrors`: row `pos` of `h` equals the syndrome. -/
def match1 (syndrome : List Bool) (pos : Nat) : Bool :=
  (List.range 11).all (fun i => syndrome.getD i false == h.getD (pos * 11 + i) false)

/-- `testSyndrome` built in the 2-bit loop of `correctErrors`. -/
def testSyndrome2 (i j : Nat) : List Bool :=
  (List.range 11).map (fun k => xorBool (h.getD (i * 11 + k) false) (h.getD (j * 11 + k) false))

/-- The 2-bit match test of `correctErrors`. -/
def match2 (syndrome : List Bool) (i j : Nat) : Bool :=
  (List.range 11).all (fun k => (testSyndrome2 i j).getD k false == syndrome.getD k false)

/-- `testSyndrome` built in the 3-bit loop of `correctErrors`. -/
def testSyndrome3 (i j l : Nat) : List Bool :=
  (List.range 11).map (fun k =>
    xorBool (xorBool (h.getD (i * 11 + k) false) (h.getD (j * 11 + k) false))
      (h.getD (l * 11 + k) false))

/-- The 3-bit match test of `correctErrors`. -/
def match3 (syndrome : List Bool) (i j l : Nat) : Bool :=
  (List.range 11).all (fun k => (testSyndrome3 i j l).getD k false == syndrome.getD k false)

/-- The index pairs `(i, j)` with `0 ≤ i < j < 23`, in the order the 2-bit loop
of `correctErrors` visits them. -/
def pairsL : List (Nat × Nat) :=
  (List.range 23).flatMap (fun i => ((List.range 23).drop (i + 1)).map (fun j => (i, j)))

/-- The index triples `(i, j, l)` with `0 ≤ i < j < l < 23`, in the order the
3-bit loop of `correctErrors` visits them. -/
def triplesL : List (Nat × Nat × Nat) :=
  (List.range 23).flatMap (fun i => ((List.range 23).drop (i + 1)).flatMap (fun j =>
    ((List.range 23).drop (j + 1)).map (fun l => (i, j, l))))

/-- First position whose `h` row matches the syndrome (the 1-bit loop). -/
def search1 (syndrome : List Bool) : Option Nat :=
  (List.range 23).find? (match1 syndrome)

/-- First pair whose XOR of `h` rows matches the syndrome (the 2-bit loop). -/
def search2 (syndrome : List Bool) : Option (Nat × Nat) :=
  pairsL.find? (fun p => match2 syndrome p.1 p.2)

/-- First triple whose XOR of `h` rows matches the syndrome (the 3-bit loop). -/
def search3 (syndrome : List Bool) : Option (Nat × Nat × Nat) :=
  triplesL.find? (fun t => match3 syndrome t.1 t.2.1 t.2.2)

/-- `corrected[pos] = !corrected[pos]`. -/
def flipAt (l : List Bool) (pos : Nat) : List Bool :=
  l.set pos (!(l.getD pos false))

/-- `correctErrors(received, syndrome)`: ordered search for a 1-, 2- or 3-bit
error pattern; flips the first match on a copy of `received`; if none matches,
returns the copy of `received` unchanged. -/
def correctErrors (received syndrome : List Bool) : List Bool :=
  match search1 syndrome with
  | some pos => flipAt received pos
  | none =>
    match search2 syndrome with
    | some (i, j) => flipAt (flipAt received i) j
    | none =>
      match search3 syndrome with
      | some (i, j, l) => flipAt (flipAt (flipAt received i) j) l
      | none => received

/-- Internal `decode(received, data)` with `dataLen = len(data)`: panics
(`none`) unless `len(received) = 23` and `dataLen ≤ 12`; otherwise returns the
new contents of `data`, namely `corrected[:len(data)]`. -/
def decodeGo (received : List Bool) (dataLen : Nat) : Option (List Bool) :=
  if received.length ≠ 23 then none
  else if 12 < dataLen then none
  else
    let syndrome := syndromeList received
    let corrected := if isZeroSyndrome syndrome then received else correctErrors received syndrome
    some (corrected.take dataLen)

/-- `copy(dst[start:start+len(src)], src)` for in-range writes: replaces the
window of `dst` at offset `start` by `src`.  All call sites below guarantee
`start + src.length ≤ dst.length`, matching Go's slice bounds. -/
def copyInto (dst : List Bool) (start : Nat) (src : List Bool) : List Bool :=
  dst.take start ++ src ++ dst.drop (start + src.length)

/-- One iteration of the `Encode` loop: copy the `i`-th (up to) 12-bit slice
of `data` into the result buffer at offset `i*23`, then compute its parity
in place at offset `i*23+12`. -/
def encodeStep (data result : List Bool) (i : Nat) : Option (List Bool) :=
  let start := i * 12
  let stop := min (start + 12) data.length
  let resultStart := i * 23
  let result1 := copyInto result resultStart ((data.drop start).take (stop - start))
  let dslice := (result1.drop resultStart).take 12
  let pslice := (result1.drop (resultStart + 12)).take 11
  (encodeGo dslice pslice).map (fun parity => copyInto result1 (resultStart + 12) parity)

/-- Public `Encode(data)`: splits `data` into 12-bit chunks (final chunk
zero-padded), writes each chunk and its parity into a preallocated
`numBlocks*23` buffer.  `none` only if an internal `encode` length
precondition fails. -/
def EncodeGo (data : List Bool) : Option (List Bool) :=
  if data.length = 0 then some []
  else
    let numBlocks := (data.length + 11) / 12
    (List.range numBlocks).foldlM (encodeStep data)
      (List.replicate (numBlocks * 23) false)

/-- One iteration of the `Decode` loop: extract the `i`-th 23-bit block of
`received` and decode it into the window of the output starting at `i*12`,
of width `min 12 (n - i*12)` where `n = len(data)`. -/
def decodeStep (received : List Bool) (n : Nat) (d : List Bool) (i : Nat) : Option (List Bool) :=
  let start := i * 23
  let block := (received.drop start).take 23
  let dataStart := i * 12
  let decodeLen := if n - dataStart < 12 then n - dataStart else 12
  (decodeGo block decodeLen).map (fun res => copyInto d dataStart res)

/-- Public `Decode(received, data)`: returns the new contents of `data`.
Per block: extract 23 bits, decode into the 12-bit (or shorter, for the
last block) window of `data`; finally zero-fill positions not covered by an
available block.  `decodeStep` receives `n = len(data)`, the length the Go
loop body reads from the outer `data` slice. -/
def DecodeGo (received data : List Bool) : Option (List Bool) :=
  if data.length = 0 then some data
  else
    let numBlocksNeeded := (data.length + 11) / 12
    let numBlocksAvailable := received.length / 23
    let numBlocks := min numBlocksAvailable numBlocksNeeded
    ((List.range numBlocks).foldlM (decodeStep received data.length) data).map
      (fun d => d.take (numBlocks * 12) ++ List.replicate (d.length - numBlocks * 12) false)

/-- The `i`-th 12-bit chunk of `data`, zero-padded to length 12 (the slice
copy plus zero-initialised remainder in `Encode`). -/
def chunk12 (data : List Bool) (i : Nat) : List Bool :=
  (data.drop (i * 12)).take 12 ++
    List.replicate (12 - ((data.drop (i * 12)).take 12).length) false

/-- The `i`-th 23-bit output block of `Encode`: padded chunk followed by its
parity bits. -/
def encodeBlock (data : List Bool) (i : Nat) : List Bool :=
  chunk12 data i ++ parityList (chunk12 data i)

/-- The decoded 12 data bits of block `i` of `received` (the per-block work
of `Decode` when a full 12-bit window is available). -/
def blockDecode (received : List Bool) (i : Nat) : List Bool :=
  let block := (received.drop (i * 23)).take 23
  let syndrome := syndromeList block
  let corrected := if isZeroSyndrome syndrome then block else correctErrors block syndrome
  corrected.take 12

/-- Internal `decode` with both arrays threaded through: returns the final
contents of `(received, data)`.  Error correction operates on the fresh copy
`corrected`; `received` is never written. -/
def decodeFull (received data : List Bool) : Option (List Bool × List Bool) :=
  if received.length ≠ 23 then none
  else if 12 < data.length then none
  else
    let syndrome := syndromeList received
    let corrected := if isZeroSyndrome syndrome then received else correctErrors received syndrome
    some (received, corrected.take data.length)

/-- An 11-bit syndrome value (`00000010111`) that no error pattern of weight
at most 3 produces: exhaustive search over all 23 + 253 + 1771 candidate
patterns finds no match (see the search lemmas below). -/
def uncoveredSyndrome : List Bool :=
  [false, false, false, false, false, false, true, false, true, true, true]

/-- A received word whose syndrome is `uncoveredSyndrome`: the all-zero data
block with the four trailing parity positions 18, 20, 21, 22 flipped. -/
def uncorrectableWord : List Bool := List.replicate 12 false ++ uncoveredSyndrome

/-- The all-zero codeword (encoding of data word 0) corrupted by the
weight-2 error pattern {3, 10}. -/
def corruptedZero : List Bool :=
  [false, false, false, true, false, false, false, false, false, false, true, false,
   false, false, false, false, false, false, false, false, false, false, false]

/-- What `decode` actually returns on `corruptedZero`: bits 0, 3 and 10 set,
not the original all-zero data word. -/
def miscorrectedData : List Bool :=
  [true, false, false, true, false, false, false, false, false, false, true, false]

/-- XOR-sum of `c` over the elements of `l`: the value accumulated by the
conditional-flip loops of `encode` and `decode`. -/
def xsum (c : Nat → Bool) (l : List Nat) : Bool :=
  l.foldr (fun j acc => xor (c j) acc) false

/-- The full sequence of 23-bit blocks `Encode` produces (chunk plus parity,
concatenated). -/
def encodeBlocks (data : List Bool) : List Bool :=
  ((List.range ((data.length + 11) / 12)).map (encodeBlock data)).flatten

/-- The portion of `data` written when `Decode` processes block `i`, for an
output slice of length `n`: the corrected block truncated to the remaining
output length (at most 12 bits). -/
def blockRes (received : List Bool) (n i : Nat) : List Bool :=
  let block := (received.drop (i * 23)).take 23
  let syndrome := syndromeList block
  let corrected := if isZeroSyndrome syndrome then block else correctErrors block syndrome
  corrected.take (if n - i * 12 < 12 then n - i * 12 else 12)

/-! ## Basic lemmas about the XOR accumulation loops -/

lemma foldl_flip_eq (c : Nat → Bool) (l : List Nat) :
    ∀ b : Bool, l.foldl (fun p j => if c j then !p else p) b = xor b (xsum c l) := by
  induction l with
  | nil => intro b; simp [xsum]
  | cons a t ih =>
    intro b
    rw [List.foldl_cons, ih]
    simp only [xsum, List.foldr_cons]
    cases c a <;> cases b <;> simp

lemma xsum_append (c : Nat → Bool) (l₁ l₂ : List Nat) :
    xsum c (l₁ ++ l₂) = xor (xsum c l₁) (xsum c l₂) := by
  induction l₁ with
  | nil => simp [xsum]
  | cons a t ih =>
    simp only [xsum, List.cons_append, List.foldr_cons] at *
    rw [ih, Bool.xor_assoc]

lemma xsum_map (c : Nat → Bool) (f : Nat → Nat) (l : List Nat) :
    xsum c (l.map f) = xsum (fun x => c (f x)) l := by
  induction l with
  | nil => rfl
  | cons a t ih => simp only [xsum, List.map_cons, List.foldr_cons] at *; rw [ih]

lemma xsum_congr {c c' : Nat → Bool} {l : List Nat} (hcc : ∀ x ∈ l, c x = c' x) :
    xsum c l = xsum c' l := by
  induction l with
  | nil => rfl
  | cons a t ih =>
    simp only [xsum, List.foldr_cons] at *
    rw [hcc a (List.mem_cons_self a t), ih (fun x hx => hcc x (List.mem_cons_of_mem a hx))]

lemma xsum_false (l : List Nat) : xsum (fun _ => false) l = false := by
  induction l with
  | nil => rfl
  | cons a t ih => simp only [xsum, List.foldr_cons] at *; rw [ih]; rfl

lemma xsum_delta (x : Nat → Bool) :
    ∀ n i, i < n → xsum (fun k => x k && decide (k = i)) (List.range n) = x i := by
  intro n
  induction n with
  | zero => omega
  | succ m ih =>
    intro i hi
    rw [List.range_succ, xsum_append]
    rcases Nat.lt_or_ge i m with hlt | hge
    · rw [ih i hlt]
      simp only [xsum, List.foldr_cons, List.foldr_nil]
      have : (m = i) = False := by simp; omega
      simp [this]
    · have : i = m := by omega
      subst this
      have hz : xsum (fun k => x k && decide (k = i)) (List.range i) = false := by
        have hcc : ∀ k ∈ List.range i, (x k && decide (k = i)) = false := by
          intro k hk
          have hki : k < i := List.mem_range.mp hk
          have hne : (k = i) = False := by simp; omega
          simp [hne]
        rw [xsum_congr hcc, xsum_false]
      rw [hz]
      simp [xsum]

/-! ## The two inner loops as XOR-sums -/

lemma parityBit_eq (data : List Bool) (i : Nat) :
    parityBit data i =
      xsum (fun j => data.getD j false && g.getD (j * 11 + i) false) (List.range 12) := by
  rw [parityBit, foldl_flip_eq]
  simp

lemma syndromeBit_eq (received : List Bool) (i : Nat) :
    syndromeBit received i =
      xsum (fun j => received.getD j false && h.getD (j * 11 + i) false) (List.range 23) := by
  rw [syndromeBit, foldl_flip_eq]
  simp

/-! ## Structure of the parity-check matrix -/

lemma h_agrees_with_g : ∀ j < 12, ∀ i < 11,
    h.getD (j * 11 + i) false = g.getD (j * 11 + i) false := by decide

lemma h_identity_block : ∀ k < 11, ∀ i < 11,
    h.getD ((12 + k) * 11 + i) false = decide (k = i) := by decide

/-! ## List access helpers -/

lemma getD_map_range (f : Nat → Bool) (n i : Nat) (hi : i < n) :
    ((List.range n).map f).getD i false = f i := by
  have hlen : i < ((List.range n).map f).length := by
    simp [hi]
  rw [List.getD_eq_getElem _ _ hlen, List.getElem_map, List.getElem_range]

lemma parityList_getD (data : List Bool) (i : Nat) (hi : i < 11) :
    (parityList data).getD i false = parityBit data i :=
  getD_map_range _ 11 i hi

lemma parityList_length (data : List Bool) : (parityList data).length = 11 := by
  simp [parityList]

/-! ## Syndrome of a systematic word -/

lemma range23_split : List.range 23 = List.range 12 ++ (List.range 11).map (fun k => 12 + k) := by
  decide

lemma syndromeBit_split (d p : List Bool) (hd : d.length = 12) (i : Nat) (hi : i < 11) :
    syndromeBit (d ++ p) i = xor (parityBit d i) (p.getD i false) := by
  rw [syndromeBit_eq, range23_split, xsum_append, xsum_map]
  have h₁ : xsum (fun j => (d ++ p).getD j false && h.getD (j * 11 + i) false) (List.range 12) =
      xsum (fun j => d.getD j false && g.getD (j * 11 + i) false) (List.range 12) := by
    apply xsum_congr
    intro j hj
    have hj12 : j < 12 := List.mem_range.mp hj
    rw [h_agrees_with_g j hj12 i hi, List.getD_append _ _ _ _ (by omega)]
  have h₂ : xsum (fun k => (d ++ p).getD (12 + k) false && h.getD ((12 + k) * 11 + i) false)
      (List.range 11) = p.getD i false := by
    have : xsum (fun k => (d ++ p).getD (12 + k) false && h.getD ((12 + k) * 11 + i) false)
        (List.range 11) =
        xsum (fun k => p.getD k false && decide (k = i)) (List.range 11) := by
      apply xsum_congr
      intro k hk
      have hk11 : k < 11 := List.mem_range.mp hk
      rw [h_identity_block k hk11 i hi]
      congr 1
      rw [List.getD_append_right _ _ _ _ (by omega)]
      congr 1
      omega
    rw [this, xsum_delta _ 11 i hi]
  rw [h₁, h₂, parityBit_eq]

lemma syndrome_of_codeword (d : List Bool) (hd : d.length = 12) :
    syndromeList (d ++ parityList d) = List.replicate 11 false := by
  apply List.ext_getElem
  · simp [syndromeList]
  intro i hi _
  simp only [syndromeList, List.length_map, List.length_range] at hi
  simp only [syndromeList, List.getElem_map, List.getElem_range, List.getElem_replicate]
  rw [show syndromeBit (d ++ parityList d) i =
        xor (parityBit d i) ((parityList d).getD i false) from syndromeBit_split d _ hd i hi,
      parityList_getD d i hi, Bool.xor_self]

lemma getD_replicate_false (n i : Nat) : (List.replicate n false).getD i false = false := by
  rcases Nat.lt_or_ge i n with hlt | hge
  · rw [List.getD_eq_getElem _ _ (by simpa using hlt), List.getElem_replicate]
  · rw [List.getD_eq_default _ _ (by simpa using hge)]

lemma syndromeList_getD (r : List Bool) (i : Nat) (hi : i < 11) :
    (syndromeList r).getD i false = syndromeBit r i :=
  getD_map_range _ 11 i hi

/-- C6: for a 23-bit received word `r`, the syndrome computed by `decode` is
the zero vector iff `r` is a valid codeword: `r` consists of some 12-bit data
word followed by the 11 parity bits `encode` produces for it. -/
theorem c6_syndrome_zero_iff_codeword (r : List Bool) (hr : r.length = 23) :
    syndromeList r = List.replicate 11 false ↔
      ∃ d, d.length = 12 ∧ r = d ++ parityList d := by
  constructor
  · intro hz
    have htd : (r.take 12).length = 12 := by simp [hr]
    refine ⟨r.take 12, htd, ?_⟩
    conv_lhs => rw [← List.take_append_drop 12 r]
    congr 1
    have hbit : ∀ i, i < 11 → syndromeBit r i = false := by
      intro i hi
      have h1 : (syndromeList r).getD i false = (List.replicate 11 false).getD i false := by
        rw [hz]
      rwa [syndromeList_getD r i hi, getD_replicate_false] at h1
    apply List.ext_getElem
    · simp [hr, parityList]
    intro i hi₁ hi₂
    have hi : i < 11 := by
      simpa [hr] using hi₁
    have hsplit := syndromeBit_split (r.take 12) (r.drop 12) htd i hi
    rw [List.take_append_drop 12 r] at hsplit
    have hx : xor (parityBit (r.take 12) i) ((r.drop 12).getD i false) = false := by
      rw [← hsplit]; exact hbit i hi
    have heq : (r.drop 12).getD i false = parityBit (r.take 12) i := by
      revert hx
      cases parityBit (r.take 12) i <;> cases (r.drop 12).getD i false <;> simp
    rw [← List.getD_eq_getElem _ false hi₁, ← List.getD_eq_getElem _ false hi₂,
      parityList_getD _ i hi, heq]
  · rintro ⟨d, hd, rfl⟩
    exact syndrome_of_codeword d hd

/-- Witness for C6 at the all-zero received word. -/
theorem c6_syndrome_zero_iff_codeword_witness :
    ∃ d, d.length = 12 ∧ List.replicate 23 false = d ++ parityList d :=
  (c6_syndrome_zero_iff_codeword (List.replicate 23 false) (by decide)).mp (by decide)

/-! ## Structure of `Encode` -/

lemma take_clamp {α : Type} (l : List α) (m : Nat) : l.take (min m l.length) = l.take m := by
  rcases Nat.le_total m l.length with hc | hc
  · rw [Nat.min_eq_left hc]
  · rw [Nat.min_eq_right hc, List.take_length, List.take_of_length_le hc]

lemma chunk12_length (data : List Bool) (i : Nat) : (chunk12 data i).length = 12 := by
  have : ((data.drop (i * 12)).take 12).length ≤ 12 := by
    simp [List.length_take]
  simp only [chunk12, List.length_append, List.length_replicate]
  omega

lemma encodeBlock_length (data : List Bool) (i : Nat) : (encodeBlock data i).length = 23 := by
  simp [encodeBlock, chunk12_length, parityList_length]

lemma encJ_succ (data : List Bool) (k : Nat) :
    ((List.range (k + 1)).map (encodeBlock data)).flatten =
      ((List.range k).map (encodeBlock data)).flatten ++ encodeBlock data k := by
  rw [List.range_succ, List.map_append, List.flatten_append]
  simp

lemma encJ_length (data : List Bool) (m : Nat) :
    (((List.range m).map (encodeBlock data)).flatten).length = m * 23 := by
  induction m with
  | zero => simp
  | succ k ih =>
    rw [encJ_succ, List.length_append, ih, encodeBlock_length]
    omega

lemma encodeStep_spec (data : List Bool) (nb i : Nat) (hnb : nb = (data.length + 11) / 12)
    (hi : i < nb) :
    encodeStep data
        (((List.range i).map (encodeBlock data)).flatten ++
          List.replicate ((nb - i) * 23) false) i =
      some (((List.range (i + 1)).map (encodeBlock data)).flatten ++
        List.replicate ((nb - (i + 1)) * 23) false) := by
  have hmod := Nat.div_add_mod (data.length + 11) 12
  have hmlt : (data.length + 11) % 12 < 12 := Nat.mod_lt _ (by omega)
  set n := data.length with hn
  have hstart : i * 12 < n := by omega
  set ℓ : Nat := min (i * 12 + 12) n - i * 12 with hℓ
  have hℓ1 : 1 ≤ ℓ := by omega
  have hℓ12 : ℓ ≤ 12 := by omega
  set DP : List Bool := (data.drop (i * 12)).take 12 with hDP
  have hDPlen : DP.length = ℓ := by
    simp only [hDP, List.length_take, List.length_drop, ← hn]
    omega
  have hDPeq : (data.drop (i * 12)).take (min (i * 12 + 12) n - i * 12) = DP := by
    rw [hDP]
    have h1 : min (i * 12 + 12) n - i * 12 = min 12 ((data.drop (i * 12)).length) := by
      simp only [List.length_drop, ← hn]
      omega
    rw [h1, take_clamp]
  set J : List Bool := ((List.range i).map (encodeBlock data)).flatten with hJ
  have hJlen : J.length = i * 23 := encJ_length data i
  set M : Nat := (nb - i) * 23 - ℓ with hM
  have hM23 : 23 ≤ (nb - i) * 23 := by
    have : 1 ≤ nb - i := by omega
    omega
  have hres1 : copyInto (J ++ List.replicate ((nb - i) * 23) false) (i * 23) DP =
      J ++ (DP ++ List.replicate M false) := by
    rw [copyInto, List.take_left' hJlen, hDPlen, List.drop_append_eq_append_drop,
      List.drop_eq_nil_of_le (by omega), List.drop_replicate, hJlen]
    have : (nb - i) * 23 - (i * 23 + ℓ - i * 23) = M := by omega
    rw [this, List.nil_append, List.append_assoc]
  have hMsplit : List.replicate M false =
      List.replicate (12 - ℓ) false ++ List.replicate ((nb - i) * 23 - 12) false := by
    rw [← List.replicate_add]
    congr 1
    omega
  have hchunk : DP ++ List.replicate (12 - ℓ) false = chunk12 data i := by
    rw [chunk12, ← hDP, hDPlen]
  have hdslice : ((J ++ (DP ++ List.replicate M false)).drop (i * 23)).take 12 =
      chunk12 data i := by
    rw [List.drop_left' hJlen, List.take_append_eq_append_take, hDPlen,
      List.take_of_length_le (by omega), List.take_replicate]
    rw [← hchunk]
    congr 2
    omega
  have hregroup : J ++ (DP ++ List.replicate M false) =
      (J ++ chunk12 data i) ++ List.replicate ((nb - i) * 23 - 12) false := by
    rw [hMsplit, ← hchunk]
    simp [List.append_assoc]
  have hleftlen : (J ++ chunk12 data i).length = i * 23 + 12 := by
    rw [List.length_append, hJlen, chunk12_length]
  have hpslice : ((J ++ (DP ++ List.replicate M false)).drop (i * 23 + 12)).take 11 =
      List.replicate 11 false := by
    rw [hregroup, List.drop_left' hleftlen, List.take_replicate]
    congr 1
    omega
  have hfinal : copyInto (J ++ (DP ++ List.replicate M false)) (i * 23 + 12)
      (parityList (chunk12 data i)) =
      ((List.range (i + 1)).map (encodeBlock data)).flatten ++
        List.replicate ((nb - (i + 1)) * 23) false := by
    rw [copyInto, hregroup, List.take_left' hleftlen, parityList_length,
      List.drop_append_eq_append_drop, List.drop_eq_nil_of_le (by omega),
      List.drop_replicate, hleftlen, List.nil_append]
    rw [encJ_succ, ← hJ]
    have h1 : (nb - i) * 23 - 12 - (i * 23 + 12 + 11 - (i * 23 + 12)) = (nb - (i + 1)) * 23 := by
      omega
    rw [h1, encodeBlock]
    simp [List.append_assoc]
  simp only [encodeStep, ← hJ, hDPeq, ← hn, hres1, hdslice]
  rw [encodeGo]
  rw [if_neg (by simp [chunk12_length])]
  rw [hpslice]
  rw [if_neg (by simp)]
  simp only [Option.map_some']
  rw [hfinal]

lemma encode_fold (data : List Bool) (nb : Nat) (hnb : nb = (data.length + 11) / 12) :
    ∀ m i, i + m = nb →
      (List.range' i m).foldlM (encodeStep data)
        (((List.range i).map (encodeBlock data)).flatten ++
          List.replicate ((nb - i) * 23) false) =
        some (((List.range nb).map (encodeBlock data)).flatten) := by
  intro m
  induction m with
  | zero =>
    intro i hi
    have : i = nb := by omega
    subst this
    simp
  | succ k ih =>
    intro i hik
    rw [show List.range' i (k + 1) = i :: List.range' (i + 1) k by
          simpa using List.range'_succ i k 1,
      List.foldlM_cons, encodeStep_spec data nb i hnb (by omega)]
    simpa using ih (i + 1) (by omega)

lemma EncodeGo_eq (data : List Bool) : EncodeGo data = some (encodeBlocks data) := by
  rw [EncodeGo, encodeBlocks]
  by_cases h0 : data.length = 0
  · rw [if_pos h0, h0]
    simp
  · rw [if_neg h0]
    have := encode_fold data ((data.length + 11) / 12) rfl ((data.length + 11) / 12) 0
      (by omega)
    simpa [List.range_eq_range'] using this

/-- C7: `Encode` splits its input into `⌈n/12⌉` 12-bit chunks (the last one
zero-padded), and returns their 23-bit blocks (chunk followed by its 11
parity bits) concatenated in order; for `n = 0` the result is empty. -/
theorem c7_encode_structure (data : List Bool) :
    EncodeGo data =
      some (((List.range ((data.length + 11) / 12)).map
        (fun i => chunk12 data i ++ parityList (chunk12 data i))).flatten) := by
  have := EncodeGo_eq data
  simpa [encodeBlocks, encodeBlock] using this

/-! ## Structure of `Decode` -/

lemma correctErrors_length (r s : List Bool) : (correctErrors r s).length = r.length := by
  rw [correctErrors]
  split
  · simp [flipAt]
  · split
    · simp [flipAt]
    · split
      · simp [flipAt]
      · rfl

lemma block_length (received : List Bool) (i : Nat) (hb : i * 23 + 23 ≤ received.length) :
    ((received.drop (i * 23)).take 23).length = 23 := by
  simp only [List.length_take, List.length_drop]
  omega

lemma blockRes_length (received : List Bool) (n i : Nat) (hb : i * 23 + 23 ≤ received.length) :
    (blockRes received n i).length = if n - i * 12 < 12 then n - i * 12 else 12 := by
  simp only [blockRes, List.length_take]
  have hc : (if isZeroSyndrome (syndromeList ((received.drop (i * 23)).take 23)) then
      (received.drop (i * 23)).take 23
    else correctErrors ((received.drop (i * 23)).take 23)
      (syndromeList ((received.drop (i * 23)).take 23))).length = 23 := by
    split
    · exact block_length received i hb
    · rw [correctErrors_length]; exact block_length received i hb
  rw [hc]
  split <;> omega

lemma decodeGo_eq (received : List Bool) (dataLen : Nat) (h23 : received.length = 23)
    (h12 : dataLen ≤ 12) :
    decodeGo received dataLen =
      some ((if isZeroSyndrome (syndromeList received) then received
        else correctErrors received (syndromeList received)).take dataLen) := by
  rw [decodeGo, if_neg (by omega), if_neg (by omega)]

lemma decodeStep_spec (received out : List Bool) (n i : Nat) (hn : n = out.length)
    (hia : i < received.length / 23) (hin : i * 12 < n) (P : List Bool)
    (hP : P.length = i * 12) :
    decodeStep received n (P ++ out.drop (i * 12)) i =
      some ((P ++ blockRes received n i) ++ out.drop ((i + 1) * 12)) := by
  have hdm := Nat.div_add_mod received.length 23
  have hml : received.length % 23 < 23 := Nat.mod_lt _ (by omega)
  have hblen : i * 23 + 23 ≤ received.length := by omega
  have hb := block_length received i hblen
  have hdec : decodeGo ((received.drop (i * 23)).take 23)
      (if n - i * 12 < 12 then n - i * 12 else 12) = some (blockRes received n i) := by
    rw [decodeGo_eq _ _ hb (by split <;> omega)]
    rfl
  have hreslen : (blockRes received n i).length = if n - i * 12 < 12 then n - i * 12 else 12 :=
    blockRes_length received n i hblen
  simp only [decodeStep, hdec, Option.map_some']
  congr 1
  rw [copyInto, List.take_left' hP, List.drop_append_eq_append_drop,
    List.drop_eq_nil_of_le (by omega), List.nil_append, List.drop_drop, hP, hreslen]
  have hdrop : out.drop (i * 12 + (i * 12 + (if n - i * 12 < 12 then n - i * 12 else 12)
      - i * 12)) = out.drop ((i + 1) * 12) := by
    by_cases hc : n - i * 12 < 12
    · rw [if_pos hc, show i * 12 + (i * 12 + (n - i * 12) - i * 12) = n by omega,
        List.drop_eq_nil_of_le (by omega), List.drop_eq_nil_of_le (by omega)]
    · rw [if_neg hc]
      congr 1
      omega
  rw [hdrop, List.append_assoc]

lemma decode_fold (received out : List Bool) (n nbN k : Nat) (hn : n = out.length)
    (hnbN : nbN = (n + 11) / 12) (hk : k = min (received.length / 23) nbN) :
    ∀ m i, i + m ≤ k → ∀ P : List Bool, P.length = i * 12 →
      (List.range' i m).foldlM (decodeStep received n) (P ++ out.drop (i * 12)) =
        some (P ++ (((List.range' i m).map (blockRes received n)).flatten ++
          out.drop ((i + m) * 12))) := by
  have hdm := Nat.div_add_mod (n + 11) 12
  have hml : (n + 11) % 12 < 12 := Nat.mod_lt _ (by omega)
  intro m
  induction m with
  | zero =>
    intro i him P hP
    simp
  | succ m' ih =>
    intro i him P hP
    have hia : i < received.length / 23 := by omega
    have hin : i * 12 < n := by omega
    rw [show List.range' i (m' + 1) = i :: List.range' (i + 1) m' by
          simpa using List.range'_succ i m' 1,
      List.foldlM_cons, decodeStep_spec received out n i hn hia hin P hP]
    by_cases hc : n - i * 12 < 12
    · have hm0 : m' = 0 := by omega
      subst hm0
      simp [List.append_assoc]
    · have hP' : (P ++ blockRes received n i).length = (i + 1) * 12 := by
        rw [List.length_append, hP, blockRes_length received n i (by
          have hdm23 := Nat.div_add_mod received.length 23
          have hml23 : received.length % 23 < 23 := Nat.mod_lt _ (by omega)
          omega), if_neg hc]
        omega
      have := ih (i + 1) (by omega) (P ++ blockRes received n i) hP'
      simpa [List.append_assoc, show i + 1 + m' = i + (m' + 1) by omega] using this

lemma DecodeGo_eq (received out : List Bool) (k : Nat) (h0 : 0 < out.length)
    (hk : k = min (received.length / 23) ((out.length + 11) / 12)) :
    DecodeGo received out =
      some ((((List.range k).map (blockRes received out.length)).flatten ++
          out.drop (k * 12)).take (k * 12) ++
        List.replicate ((((List.range k).map (blockRes received out.length)).flatten ++
          out.drop (k * 12)).length - k * 12) false) := by
  rw [DecodeGo, if_neg (by omega)]
  have hf := decode_fold received out out.length ((out.length + 11) / 12) k rfl rfl hk
    k 0 (by omega) [] (by simp)
  simp only [Nat.zero_mul, List.drop_zero, List.nil_append, Nat.zero_add] at hf
  simp only [List.range_eq_range', ← hk]
  rw [hf]
  simp

lemma flatten_map_range_length (f : Nat → List Bool) (L : Nat) :
    ∀ m, (∀ i, i < m → (f i).length = L) →
      (((List.range m).map f).flatten).length = m * L := by
  intro m
  induction m with
  | zero => intro _; simp
  | succ p ih =>
    intro hall
    rw [List.range_succ, List.map_append, List.flatten_append, List.length_append,
      ih (fun i hi => hall i (by omega))]
    simp [hall p (by omega)]
    ring

lemma chunks_join (data : List Bool) :
    ∀ m, ((List.range m).map (fun i => (data.drop (i * 12)).take 12)).flatten =
      data.take (m * 12) := by
  intro m
  induction m with
  | zero => simp
  | succ p ih =>
    rw [List.range_succ, List.map_append, List.flatten_append, ih]
    simp only [List.map_cons, List.map_nil, List.flatten_cons, List.flatten_nil,
      List.append_nil]
    rw [show (p + 1) * 12 = p * 12 + 12 by ring, List.take_add]

lemma flat23_extract (data : List Bool) :
    ∀ m i, i < m →
      (((((List.range m).map (encodeBlock data)).flatten).drop (i * 23)).take 23) =
        encodeBlock data i := by
  intro m
  induction m with
  | zero => omega
  | succ p ih =>
    intro i hi
    rw [encJ_succ]
    rcases Nat.lt_or_ge i p with hlt | hge
    · rw [List.drop_append_eq_append_drop,
        show i * 23 - (((List.range p).map (encodeBlock data)).flatten).length = 0 by
          rw [encJ_length]; omega,
        List.drop_zero,
        List.take_append_of_le_length (by rw [List.length_drop, encJ_length]; omega)]
      exact ih i hlt
    · have hip : i = p := by omega
      subst hip
      rw [List.drop_left' (encJ_length data i),
        List.take_of_length_le (by simp [encodeBlock_length])]

lemma blockRes_eq_blockDecode (received : List Bool) (n i : Nat) (hwide : ¬n - i * 12 < 12) :
    blockRes received n i = blockDecode received i := by
  simp only [blockRes, blockDecode, if_neg hwide]

lemma blockDecode_length (received : List Bool) (i : Nat) (hb : i * 23 + 23 ≤ received.length) :
    (blockDecode received i).length = 12 := by
  simp only [blockDecode, List.length_take]
  have hc : (if isZeroSyndrome (syndromeList ((received.drop (i * 23)).take 23)) then
      (received.drop (i * 23)).take 23
    else correctErrors ((received.drop (i * 23)).take 23)
      (syndromeList ((received.drop (i * 23)).take 23))).length = 23 := by
    split
    · exact block_length received i hb
    · rw [correctErrors_length]; exact block_length received i hb
  rw [hc]
  omega

/-- C10: when `received` holds fewer complete 23-bit blocks than the output
needs (`⌊len(received)/23⌋ < ⌈len(data)/12⌉`), `Decode` decodes exactly the
available complete blocks into the first `12·⌊len(received)/23⌋` output
positions and sets every later output position to `false`; a trailing
partial block of `received` plays no part. -/
theorem c10_insufficient_received (received out : List Bool)
    (hshort : received.length / 23 < (out.length + 11) / 12) :
    DecodeGo received out =
      some ((((List.range (received.length / 23)).map (blockDecode received)).flatten) ++
        List.replicate (out.length - (received.length / 23) * 12) false) := by
  have h0 : 0 < out.length := by omega
  have hdm := Nat.div_add_mod (out.length + 11) 12
  have hml : (out.length + 11) % 12 < 12 := Nat.mod_lt _ (by omega)
  have hdm23 := Nat.div_add_mod received.length 23
  have hml23 : received.length % 23 < 23 := Nat.mod_lt _ (by omega)
  have hk : received.length / 23 = min (received.length / 23) ((out.length + 11) / 12) :=
    (Nat.min_eq_left (Nat.le_of_lt hshort)).symm
  rw [DecodeGo_eq received out (received.length / 23) h0 hk]
  have hcong : (List.range (received.length / 23)).map (blockRes received out.length) =
      (List.range (received.length / 23)).map (blockDecode received) := by
    apply List.map_congr_left
    intro i hi
    have hia : i < received.length / 23 := List.mem_range.mp hi
    exact blockRes_eq_blockDecode received out.length i (by omega)
  rw [hcong]
  have hJlen : (((List.range (received.length / 23)).map (blockDecode received)).flatten).length
      = (received.length / 23) * 12 := by
    apply flatten_map_range_length
    intro i hia
    exact blockDecode_length received i (by omega)
  rw [List.take_left' hJlen]
  have hcount : ((((List.range (received.length / 23)).map (blockDecode received)).flatten ++
      out.drop (received.length / 23 * 12)).length) - (received.length / 23) * 12 =
      out.length - (received.length / 23) * 12 := by
    rw [List.length_append, hJlen, List.length_drop]
    omega
  rw [hcount]

/-- Witness for C10: an empty `received` against a 12-bit output slice. -/
theorem c10_insufficient_received_witness :
    (([] : List Bool).length / 23 < ((List.replicate 12 false : List Bool).length + 11) / 12) ∧
    DecodeGo [] (List.replicate 12 false) =
      some ((((List.range (([] : List Bool).length / 23)).map (blockDecode [])).flatten) ++
        List.replicate ((List.replicate 12 false : List Bool).length -
          (([] : List Bool).length / 23) * 12) false) :=
  ⟨by decide, c10_insufficient_received [] (List.replicate 12 false) (by decide)⟩

lemma chunk12_take (data : List Bool) (i L : Nat) (hL : L = min 12 (data.length - i * 12)) :
    (chunk12 data i).take L = (data.drop (i * 12)).take 12 := by
  rw [chunk12]
  have hDPlen : ((data.drop (i * 12)).take 12).length = L := by
    simp only [List.length_take, List.length_drop]
    omega
  rw [List.take_append_eq_append_take, hDPlen, Nat.sub_self, List.take_zero, List.append_nil,
    ← hDPlen, List.take_length]

/-- C2: round-trip identity.  Decoding an uncorrupted codeword recovers the
data word, both at the single-block level (`decode(encode(d)) = d` for every
12-bit `d`) and at the stream level: for any nonempty bit sequence `data` and
output slice `out` of the same length, `Decode(Encode(data), out)` writes
back exactly `data`. -/
theorem c2_roundtrip_identity :
    (∀ d : List Bool, d.length = 12 → decodeGo (d ++ parityList d) 12 = some d) ∧
    (∀ data out enc : List Bool, out.length = data.length → 0 < data.length →
      EncodeGo data = some enc → DecodeGo enc out = some data) := by
  constructor
  · intro d hd
    have h23 : (d ++ parityList d).length = 23 := by
      rw [List.length_append, hd, parityList_length]
    rw [decodeGo_eq _ _ h23 (by omega), syndrome_of_codeword d hd, if_pos (by rfl),
      List.take_left' hd]
  · intro data out enc hlen h0 henc
    have h2 := EncodeGo_eq data
    rw [henc] at h2
    have henceq : enc = encodeBlocks data := Option.some.inj h2
    subst henceq
    have hdm := Nat.div_add_mod (data.length + 11) 12
    have hml : (data.length + 11) % 12 < 12 := Nat.mod_lt _ (by omega)
    have hglen : (encodeBlocks data).length = ((data.length + 11) / 12) * 23 := by
      rw [encodeBlocks]
      exact encJ_length data _
    have ha : (encodeBlocks data).length / 23 = (data.length + 11) / 12 := by
      rw [hglen]
      exact Nat.mul_div_cancel _ (by omega)
    have hk : (data.length + 11) / 12 =
        min ((encodeBlocks data).length / 23) ((out.length + 11) / 12) := by
      rw [ha, hlen, Nat.min_self]
    rw [DecodeGo_eq (encodeBlocks data) out ((data.length + 11) / 12) (by omega) hk]
    have hmap : (List.range ((data.length + 11) / 12)).map
        (blockRes (encodeBlocks data) out.length) =
        (List.range ((data.length + 11) / 12)).map (fun i => (data.drop (i * 12)).take 12) := by
      apply List.map_congr_left
      intro i hi
      have hia : i < (data.length + 11) / 12 := List.mem_range.mp hi
      have hblock : (((encodeBlocks data).drop (i * 23)).take 23) = encodeBlock data i := by
        rw [encodeBlocks]
        exact flat23_extract data _ i hia
      simp only [blockRes, hblock, encodeBlock]
      rw [syndrome_of_codeword _ (chunk12_length data i),
        if_pos (show isZeroSyndrome (List.replicate 11 false) = true from rfl),
        List.take_append_of_le_length (by rw [chunk12_length]; split <;> omega)]
      exact chunk12_take data i _ (by rw [hlen]; split <;> omega)
    have hn12 : data.length ≤ (data.length + 11) / 12 * 12 := by omega
    have hdata : data.take ((data.length + 11) / 12 * 12) = data := List.take_of_length_le hn12
    have hdropnil : out.drop ((data.length + 11) / 12 * 12) = [] :=
      List.drop_eq_nil_of_le (by omega)
    rw [hmap, chunks_join data _, hdata, hdropnil, List.append_nil, hdata,
      show data.length - (data.length + 11) / 12 * 12 = 0 by omega]
    simp

/-- Witness for C2 at the all-zero data word and at the one-bit stream
`[true]`. -/
theorem c2_roundtrip_identity_witness :
    decodeGo (List.replicate 12 false ++ parityList (List.replicate 12 false)) 12 =
      some (List.replicate 12 false) ∧
    DecodeGo (encodeBlocks [true]) [false] = some [true] :=
  ⟨c2_roundtrip_identity.1 (List.replicate 12 false) (by decide),
   c2_roundtrip_identity.2 [true] [false] (encodeBlocks [true]) (by decide) (by decide)
     (EncodeGo_eq [true])⟩

/-- C8: the public `Encode` and `Decode` never panic — for arbitrary
arguments both complete normally (the length preconditions of the internal
helpers hold at every call site, and all slice indices stay in bounds). -/
theorem c8_no_panic (data received out : List Bool) :
    (EncodeGo data).isSome ∧ (DecodeGo received out).isSome := by
  constructor
  · rw [EncodeGo_eq]
    rfl
  · by_cases h0 : out.length = 0
    · rw [DecodeGo, if_pos h0]
      rfl
    · rw [DecodeGo_eq received out _ (by omega) rfl]
      rfl

/-! ## Frame property of the internal decoder -/

/-- C9: the internal `decode` never modifies `received` — error correction
happens on the fresh copy `corrected` — and the output written to `data`
has exactly the length of `data` (all writes stay inside `data`). -/
theorem c9_received_unmodified (received data r' d' : List Bool)
    (h : decodeFull received data = some (r', d')) :
    r' = received ∧ d'.length = data.length := by
  simp only [decodeFull] at h
  by_cases h23 : received.length ≠ 23
  · rw [if_pos h23] at h
    exact absurd h (by simp)
  · rw [if_neg h23] at h
    by_cases h12 : 12 < data.length
    · rw [if_pos h12] at h
      exact absurd h (by simp)
    · rw [if_neg h12] at h
      have hpair := Option.some.inj h
      have hr : received = r' := congrArg Prod.fst hpair
      have hd : (if isZeroSyndrome (syndromeList received) then received
          else correctErrors received (syndromeList received)).take data.length = d' :=
        congrArg Prod.snd hpair
      refine ⟨hr.symm, ?_⟩
      rw [← hd, List.length_take]
      have hc : (if isZeroSyndrome (syndromeList received) then received
          else correctErrors received (syndromeList received)).length = 23 := by
        split
        · omega
        · rw [correctErrors_length]; omega
      rw [hc]
      omega

/-- Witness for C9 at the all-zero received word and output slice. -/
theorem c9_received_unmodified_witness :
    (List.replicate 23 false : List Bool) = List.replicate 23 false ∧
    (List.replicate 12 false : List Bool).length = (List.replicate 12 false : List Bool).length :=
  c9_received_unmodified (List.replicate 23 false) (List.replicate 12 false)
    (List.replicate 23 false) (List.replicate 12 false) (by decide)

/-! ## The defect in the matrix tables: colliding and uncovered syndromes -/

set_option maxHeartbeats 4000000 in
/-- C4 fails on the code: the distinct weight-2 error patterns `{3,10}` and
`{0,16}` produce the same syndrome (XOR of the corresponding `h` rows), and
the 2-bit search run on that syndrome returns `(0,16)`, not the pattern
that caused it. -/
theorem c4_distinct_patterns_share_syndrome :
    testSyndrome2 3 10 = testSyndrome2 0 16 ∧
    ((3, 10) : Nat × Nat) ≠ (0, 16) ∧
    search2 (testSyndrome2 3 10) = some (0, 16) := by decide

set_option maxHeartbeats 4000000 in
/-- C1 fails on the code: for the all-zero data word, the weight-2 error
pattern `{3,10}` applied to its codeword decodes to `100100000010`, not back
to the original data word. -/
theorem c1_weight_two_error_miscorrected :
    parityList (List.replicate 12 false) = List.replicate 11 false ∧
    corruptedZero = flipAt (flipAt (List.replicate 12 false ++ List.replicate 11 false) 3) 10 ∧
    decodeGo corruptedZero 12 = some miscorrectedData ∧
    miscorrectedData ≠ List.replicate 12 false := by decide

set_option maxHeartbeats 1000000 in
lemma search1_uncovered : search1 uncoveredSyndrome = none := by decide

set_option maxRecDepth 10000 in
set_option maxHeartbeats 8000000 in
lemma search2_uncovered : search2 uncoveredSyndrome = none := by decide

set_option maxRecDepth 100000 in
set_option maxHeartbeats 64000000 in
lemma search3_uncovered : search3 uncoveredSyndrome = none := by decide

set_option maxHeartbeats 1000000 in
lemma syndrome_uncorrectable : syndromeList uncorrectableWord = uncoveredSyndrome := by decide

lemma correctErrors_uncorrectable :
    correctErrors uncorrectableWord uncoveredSyndrome = uncorrectableWord := by
  simp only [correctErrors, search1_uncovered, search2_uncovered, search3_uncovered]

set_option maxHeartbeats 1000000 in
/-- C5 fails on the code: `uncorrectableWord` has a nonzero syndrome that no
1-, 2- or 3-bit pattern matches, so the final fallback branch of
`correctErrors` (returning the received word uncorrected) is reachable — the
code is not a perfect code. -/
theorem c5_fallback_reachable :
    syndromeList uncorrectableWord = uncoveredSyndrome ∧
    uncoveredSyndrome ≠ List.replicate 11 false ∧
    search1 uncoveredSyndrome = none ∧
    search2 uncoveredSyndrome = none ∧
    search3 uncoveredSyndrome = none ∧
    correctErrors uncorrectableWord uncoveredSyndrome = uncorrectableWord :=
  ⟨syndrome_uncorrectable, by decide, search1_uncovered, search2_uncovered, search3_uncovered,
   correctErrors_uncorrectable⟩

set_option maxHeartbeats 4000000 in
/-- C3 fails as stated: on an uncorrectable word (nonzero syndrome, no
matching pattern) `decode` produces an output identical to that of a clean
codeword — no distinct `Uncorrectable` outcome is signalled to the caller. -/
theorem c3_no_distinct_outcome :
    syndromeList uncorrectableWord ≠ List.replicate 11 false ∧
    syndromeList (List.replicate 23 false) = List.replicate 11 false ∧
    decodeGo uncorrectableWord 12 = decodeGo (List.replicate 23 false) 12 := by
  have h1 : decodeGo uncorrectableWord 12 = some (List.replicate 12 false) := by
    rw [decodeGo_eq _ _ (by decide) (by omega), syndrome_uncorrectable,
      if_neg (by decide), correctErrors_uncorrectable]
    decide
  have h2 : decodeGo (List.replicate 23 false) 12 = some (List.replicate 12 false) := by
    decide
  exact ⟨by decide, by decide, h1.trans h2.symm⟩

/-- C3 (amended): when the pattern search is exhausted without a match,
`correctErrors` returns the received word unchanged and `decode` writes its
data prefix to the output exactly as a successful decode would; nothing in
the returned value distinguishes the uncorrectable case. -/
theorem c3_silent_on_uncorrectable (received : List Bool) (dataLen : Nat)
    (h23 : received.length = 23) (h12 : dataLen ≤ 12)
    (h1 : search1 (syndromeList received) = none)
    (h2 : search2 (syndromeList received) = none)
    (h3 : search3 (syndromeList received) = none) :
    correctErrors received (syndromeList received) = received ∧
    decodeGo received dataLen = some (received.take dataLen) := by
  have hce : correctErrors received (syndromeList received) = received := by
    simp only [correctErrors, h1, h2, h3]
  refine ⟨hce, ?_⟩
  rw [decodeGo_eq _ _ h23 h12, hce, ite_self]

/-- Witness for the amended C3 at `uncorrectableWord`. -/
theorem c3_silent_on_uncorrectable_witness :
    correctErrors uncorrectableWord (syndromeList uncorrectableWord) = uncorrectableWord ∧
    decodeGo uncorrectableWord 12 = some (uncorrectableWord.take 12) :=
  c3_silent_on_uncorrectable uncorrectableWord 12 (by decide) (by omega)
    (by rw [syndrome_uncorrectable]; exact search1_uncovered)
    (by rw [syndrome_uncorrectable]; exact search2_uncovered)
    (by rw [syndrome_uncorrectable]; exact search3_uncovered)

end Golay
